import Mathlib

/-!
Verification of the Excel generation service (excelService.js).

The address resolver, style normalizer, cell/range/table writers, sheet
formatting and the template filler are embedded as pure Lean functions.
Worksheets are modelled as lists of rows of cells, and cell writes as
explicit write records carrying the address, the value and the styles that
the service applies to that cell, in application order.
-/

namespace ExcelService

/-! ## Characters, runs and parsing -/

/-- Character-class test for the regex class `[A-Z]`. -/
def isUpperAZ (c : Char) : Bool := 65 ≤ c.toNat && c.toNat ≤ 90

/-- Character-class test for the regex class `\d` (ASCII digits). -/
def isDigitC (c : Char) : Bool := 48 ≤ c.toNat && c.toNat ≤ 57

/-- Character-class test for `[a-z]`. -/
def isLowerAZ (c : Char) : Bool := 97 ≤ c.toNat && c.toNat ≤ 122

/-- Character-class test for the regex class `\w` = `[A-Za-z0-9_]`. -/
def isWordChar (c : Char) : Bool := isUpperAZ c || isLowerAZ c || isDigitC c || c == '_'

/-- First maximal run of characters satisfying `p`: the JS
`s.match(/X+/)` for a character class `X`.  `[]` models a null match. -/
def firstRun (p : Char → Bool) : List Char → List Char
  | [] => []
  | c :: cs => if p c then c :: cs.takeWhile p else firstRun p cs

/-- `parseInt` applied to a non-empty all-digit regex match. -/
def parseDigits (ds : List Char) : Nat :=
  ds.foldl (fun n c => 10 * n + (c.toNat - 48)) 0

/-- JS `s.charCodeAt(0)`.  The service only reaches this with non-empty
strings (regex matches / caller constants); the NaN result on an empty
string is not modelled. -/
def charCodeAt0 (s : String) : Nat :=
  match s.data with
  | [] => 0
  | c :: _ => c.toNat

/-- `getCellAddress(startCol, row, colOffset)` from excelService.js:
`colCode = startCol.charCodeAt(0) - 65 + colOffset` and
`colLetter = String.fromCharCode(65 + (colCode % 26))`.
The JS `%` operator truncates toward zero, which is `Int.tmod`.
`65 + colCode.tmod 26` always lies in `40..90`, so `String.fromCharCode`
needs no 16-bit wraparound here and `Int.toNat` is exact. -/
def getCellAddress (startCol : String) (row : Nat) (colOffset : Int) : String :=
  let colCode : Int := (charCodeAt0 startCol : Int) - 65 + colOffset
  let colLetter : Char := Char.ofNat (65 + colCode.tmod 26).toNat
  String.mk [colLetter] ++ toString row

/-! ## Style model

`StyleSpec` is the declarative style object of the JSON payload, exactly
the fields `applyCellStyle` reads.  A color can arrive as a string or as a
non-string truthy value such as the exceljs-native `{argb: ...}` object
(its argb payload is recorded); `normalizeColor` on the latter throws a
TypeError (`color.replace` is not a function), modelled as `none`. -/

inductive ColorVal where
  | str (s : String)
  | argbObj (argb : String)
deriving DecidableEq

/-- JS truthiness of an optional color value: absent and `""` are falsy,
every object is truthy. -/
def truthyColor : Option ColorVal → Bool
  | none => false
  | some (ColorVal.str s) => !s.data.isEmpty
  | some (ColorVal.argbObj _) => true

/-- JS `a || b` on color values. -/
def orColor (a b : Option ColorVal) : Option ColorVal :=
  if truthyColor a then a else b

/-- JS `color.replace('#', '')`: a string pattern replaces the first
occurrence only. -/
def removeFirstHash : List Char → List Char
  | [] => []
  | c :: cs => if c = '#' then cs else c :: removeFirstHash cs

/-- `normalizeColor` on a truthy string input: strip the first `#`, prepend
an `FF` alpha channel when 6 hex digits remain, and uppercase. -/
def normalizeColorStr (s : String) : String :=
  let t := removeFirstHash s.data
  let t2 := if t.length = 6 then 'F' :: 'F' :: t else t
  String.mk (t2.map Char.toUpper)

/-- `normalizeColor(color)`: falsy input yields opaque black; a truthy
non-string input throws (`none`). -/
def normalizeColorE : Option ColorVal → Option String
  | none => some "FF000000"
  | some (ColorVal.str s) =>
      if s.data.isEmpty then some "FF000000" else some (normalizeColorStr s)
  | some (ColorVal.argbObj _) => none

/-- JS `s || d` for strings (empty string is falsy). -/
def strOr (d : String) : Option String → String
  | none => d
  | some s => if s.data.isEmpty then d else s

/-- JS `n || d` for numbers (0 is falsy). -/
def natOr (d : Nat) : Option Nat → Nat
  | none => d
  | some n => if n = 0 then d else n

structure FontSpec where
  name : Option String
  size : Option Nat
  bold : Option Bool
  italic : Option Bool
  underline : Option Bool
  color : Option ColorVal
deriving DecidableEq

structure FillSpec where
  fgColor : Option ColorVal
deriving DecidableEq

structure AlignmentSpec where
  horizontal : Option String
  vertical : Option String
  wrapText : Option Bool
  indent : Option Nat
deriving DecidableEq

structure BorderEdge where
  style : String
deriving DecidableEq

structure BorderSpec where
  top : Option BorderEdge
  left : Option BorderEdge
  bottom : Option BorderEdge
  right : Option BorderEdge
deriving DecidableEq

structure StyleSpec where
  font : Option FontSpec
  fill : Option FillSpec
  backgroundColor : Option ColorVal
  alignment : Option AlignmentSpec
  border : Option BorderSpec
  numFmt : Option String
deriving DecidableEq

/-- The style attributes exceljs stores on a cell after `applyCellStyle`
ran, plus the cell's value (which style application never touches). -/
structure AppliedFont where
  name : String
  size : Nat
  bold : Bool
  italic : Bool
  underline : Bool
  color : Option String
deriving DecidableEq

structure AppliedFill where
  fgColor : String
deriving DecidableEq

structure AppliedAlign where
  horizontal : String
  vertical : String
  wrapText : Bool
  indent : Nat
deriving DecidableEq

structure AppliedBorder where
  top : BorderEdge
  left : BorderEdge
  bottom : BorderEdge
  right : BorderEdge
deriving DecidableEq

structure CellState (α : Type) where
  value : Option α
  font : Option AppliedFont
  fill : Option AppliedFill
  alignment : Option AppliedAlign
  border : Option AppliedBorder
  numFmt : Option String
deriving DecidableEq

/-- A cell before any write. -/
def blankCell {α : Type} : CellState α := ⟨none, none, none, none, none, none⟩

/-- `style.font.color ? {argb: normalizeColor(style.font.color)} : undefined`;
`none` models the throw inside `normalizeColor`. -/
def fontColorE (col : Option ColorVal) : Option (Option String) :=
  if truthyColor col then (normalizeColorE col).map some else some none

/-- The `style.font` branch of `applyCellStyle`. -/
def applyFontStep {α : Type} (st : StyleSpec) (c : CellState α) : Option (CellState α) :=
  match st.font with
  | none => some c
  | some f =>
    match fontColorE f.color with
    | none => none
    | some col =>
      let fnt : AppliedFont :=
        { name := strOr "Calibri" f.name, size := natOr 11 f.size,
          bold := f.bold.getD false, italic := f.italic.getD false,
          underline := f.underline.getD false, color := col }
      some { c with font := some fnt }

/-- The `style.fill || style.backgroundColor` branch of `applyCellStyle`:
always a solid pattern fill with the normalized color. -/
def applyFillStep {α : Type} (st : StyleSpec) (c : CellState α) : Option (CellState α) :=
  if st.fill.isSome || truthyColor st.backgroundColor then
    match normalizeColorE (orColor st.backgroundColor (st.fill.bind FillSpec.fgColor)) with
    | none => none
    | some col => some { c with fill := some { fgColor := col } }
  else some c

/-- The `style.alignment` branch of `applyCellStyle`. -/
def applyAlignStep {α : Type} (st : StyleSpec) (c : CellState α) : CellState α :=
  match st.alignment with
  | none => c
  | some a =>
    let al : AppliedAlign :=
      { horizontal := strOr "left" a.horizontal, vertical := strOr "top" a.vertical,
        wrapText := a.wrapText.getD false, indent := a.indent.getD 0 }
    { c with alignment := some al }

/-- A border edge or the default thin edge. -/
def edgeOr : Option BorderEdge → BorderEdge
  | none => ⟨"thin"⟩
  | some e => e

/-- The `style.border` branch of `applyCellStyle`: all four edges are set
together, each defaulting to a thin line. -/
def applyBorderStep {α : Type} (st : StyleSpec) (c : CellState α) : CellState α :=
  match st.border with
  | none => c
  | some b =>
    let bd : AppliedBorder :=
      { top := edgeOr b.top, left := edgeOr b.left,
        bottom := edgeOr b.bottom, right := edgeOr b.right }
    { c with border := some bd }

/-- The `style.numFmt` branch of `applyCellStyle` (truthiness check). -/
def applyNumFmtStep {α : Type} (st : StyleSpec) (c : CellState α) : CellState α :=
  match st.numFmt with
  | none => c
  | some s => if s.data.isEmpty then c else { c with numFmt := some s }

/-- `applyCellStyle(cell, style)`: the whole body runs inside one
try/catch; a throw in the font or fill branch leaves the cell in the state
reached so far (the caught error is only logged). -/
def applyCellStyle {α : Type} (st : StyleSpec) (c : CellState α) : CellState α :=
  match applyFontStep st c with
  | none => c
  | some c1 =>
    match applyFillStep st c1 with
    | none => c1
    | some c2 => applyNumFmtStep st (applyBorderStep st (applyAlignStep st c2))

/-- The try-body of `applyCellStyle` with the throw made explicit: `ok` is
a completed application, `error` carries the cell state at the moment of
the uncaught throw. -/
def applyCellStyleTry {α : Type} (st : StyleSpec) (c : CellState α) :
    Except (CellState α) (CellState α) :=
  match applyFontStep st c with
  | none => Except.error c
  | some c1 =>
    match applyFillStep st c1 with
    | none => Except.error c1
    | some c2 => Except.ok (applyNumFmtStep st (applyBorderStep st (applyAlignStep st c2)))

/-- Definition following the claim's words (for refutation): a failure in
one sub-style skips only that sub-style, and every later sub-style is
still applied. -/
def applyCellStyleClaimed {α : Type} (st : StyleSpec) (c : CellState α) : CellState α :=
  let c1 := (applyFontStep st c).getD c
  let c2 := (applyFillStep st c1).getD c1
  applyNumFmtStep st (applyBorderStep st (applyAlignStep st c2))

/-- JS `s.toLowerCase()` (ASCII range suffices for the data-type tags). -/
def toLowerStr (s : String) : String := String.mk (s.data.map Char.toLower)

/-- `applyCellDataType(cell, dataType, format)`: a switch on the
lowercased tag; `format || default` uses JS truthiness, and the `text`
case sets "@" without consulting `format`. -/
def applyCellDataType {α : Type} (dataType : String) (format : Option String)
    (c : CellState α) : CellState α :=
  let t := toLowerStr dataType
  if t = "number" then { c with numFmt := some (strOr "0.00" format) }
  else if t = "currency" then { c with numFmt := some (strOr "$#,##0.00" format) }
  else if t = "percentage" then { c with numFmt := some (strOr "0.00%" format) }
  else if t = "date" then { c with numFmt := some (strOr "mm/dd/yyyy" format) }
  else if t = "datetime" then { c with numFmt := some (strOr "mm/dd/yyyy hh:mm:ss" format) }
  else if t = "time" then { c with numFmt := some (strOr "hh:mm:ss" format) }
  else if t = "text" then { c with numFmt := some "@" }
  else c

/-- A style whose font color is an exceljs-native `{argb: ...}` object and
which also requests an alignment (used to exhibit the catch-all behavior
of `applyCellStyle`). -/
def styleFontObjAlign : StyleSpec :=
  { font := some { name := none, size := none, bold := none, italic := none,
                   underline := none, color := some (ColorVal.argbObj "FFFFFFFF") },
    fill := none,
    backgroundColor := none,
    alignment := some { horizontal := some "center", vertical := some "middle",
                        wrapText := none, indent := none },
    border := none,
    numFmt := none }

/-! ## Cell writes, the range writer and the table writer -/

/-- One observable cell write: the resolved address, the value stored, and
the style specs the service applies to that cell, in application order
(the table writer layers up to two specs on a body cell). -/
structure Write (β : Type) where
  addr : String
  value : β
  styles : List StyleSpec
deriving DecidableEq

/-- `[style]` when a style is present, else no style application. -/
def styleList : Option StyleSpec → List StyleSpec
  | none => []
  | some s => [s]

/-- The anchor parse shared by the range and table writers:
`startRow = parseInt(startCell.match(/\d+/)[0])` and
`startCol = startCell.match(/[A-Z]+/)[0]`.  `none` models the TypeError
thrown when a regex match is null. -/
def anchorOf (startCell : List Char) : Option (String × Nat) :=
  let ds := firstRun isDigitC startCell
  let us := firstRun isUpperAZ startCell
  if ds.isEmpty || us.isEmpty then none
  else some (String.mk us, parseDigits ds)

/-- A range definition: `data = none` models an absent or non-array `data`
field; a `none` row models a non-array element of `data` (skipped by the
`Array.isArray(rowData)` check). -/
structure RangeDef (α : Type) where
  range : String
  data : Option (List (Option (List α)))
  style : Option StyleSpec

/-- `processRange(worksheet, rangeDef)` as the list of cell writes it
performs, in order.  `startCell = rangeDef.range.split(':')[0]`; `none`
models the wrapped APIError when the anchor fails to parse.  The unused
`const range = worksheet.getCell(rangeDef.range)` at the top of the source
is dead code and not modelled. -/
def processRange {α : Type} (rd : RangeDef α) : Option (List (Write α)) :=
  match rd.data with
  | none => some []
  | some rows =>
    let startCell := rd.range.data.takeWhile (fun ch => ch != ':')
    match anchorOf startCell with
    | none => none
    | some (startCol, startRow) =>
      some ((rows.enum.map (fun rp =>
        match rp.2 with
        | none => []
        | some cells =>
          cells.enum.map (fun cp =>
            Write.mk (getCellAddress startCol (startRow + rp.1) (cp.1 : Int)) cp.2
              (styleList rd.style)))).flatten)

/-- A table definition.  Rows are association lists in object-key insertion
order; the optional `style` object's three sub-styles are flattened into
three optional fields (`style` absent behaves as all three absent, exactly
as `tableDef.style?.header` etc. evaluate). -/
structure TableDef (α : Type) where
  name : Option String
  range : Option String
  data : List (List (String × α))
  styleHeader : Option StyleSpec
  styleRows : Option StyleSpec
  styleAlternateRows : Option StyleSpec

/-- The named-table construct passed to `worksheet.addTable`. -/
structure TableReg (α : Type) where
  name : String
  ref : String
  columns : List String
  rows : List (List (Option α))

/-- The observable outcome of `processTable`: the cell writes in order,
the registered named table if any, and whether the named-table branch
threw after the writes (wrapped as an APIError by the service). -/
structure TableOut (α : Type) where
  writes : List (Write (Option (String ⊕ α)))
  reg : Option (TableReg α)
  regError : Bool

/-- JS property access `row[key]` on an object modelled as an association
list (`undefined` is `none`). -/
def alookup {β : Type} (row : List (String × β)) (k : String) : Option β :=
  (row.find? (fun p => p.1 == k)).map Prod.snd

/-- The default header style of `processTable`: bold white font on a
dark-blue solid fill, centered.  Its colors are exceljs-native
`{argb: ...}` objects. -/
def defaultHeaderStyle : StyleSpec :=
  { font := some { name := none, size := none, bold := some true, italic := none,
                   underline := none, color := some (ColorVal.argbObj "FFFFFFFF") },
    fill := some { fgColor := some (ColorVal.argbObj "FF366092") },
    backgroundColor := none,
    alignment := some { horizontal := some "center", vertical := some "middle",
                        wrapText := none, indent := none },
    border := none,
    numFmt := none }

/-- `tableDef.range ? tableDef.range.split(':')[0] : 'A1'` (with JS
truthiness: an empty range string also falls back to "A1"). -/
def startCellOf {α : Type} (td : TableDef α) : List Char :=
  match td.range with
  | some r => if r.data.isEmpty then 'A' :: '1' :: [] else r.data.takeWhile (fun ch => ch != ':')
  | none => 'A' :: '1' :: []

/-- The named-table branch of `processTable` (`if (tableDef.name)`); the
`Bool` records the throw when `endCol`'s `[A-Z]+` match is null. -/
def tableRegOf {α : Type} (td : TableDef α) (startCol : String) (startRow : Nat)
    (headers : List String) : Option (TableReg α) × Bool :=
  match td.name with
  | none => (none, false)
  | some nm =>
    if nm.data.isEmpty then (none, false)
    else
      match firstRun isUpperAZ (getCellAddress startCol 1 ((headers.length : Int) - 1)).data with
      | [] => (none, true)
      | ec =>
        (some ⟨nm,
          String.mk (startCellOf td) ++ ":" ++ String.mk ec
            ++ toString (startRow + td.data.length),
          headers,
          td.data.map (fun row => headers.map (fun h => alookup row h))⟩, false)

/-- `processTable(worksheet, tableDef)`: header values are the keys of the
first row object (`Sum.inl`), body values are looked up per header key
(`Sum.inr`, `none` renders blank).  `none` models the errors thrown before
any write: empty/absent data, or an anchor that fails to parse. -/
def processTable {α : Type} (td : TableDef α) : Option (TableOut α) :=
  match td.data with
  | [] => none
  | r0 :: _ =>
    match anchorOf (startCellOf td) with
    | none => none
    | some (startCol, startRow) =>
      let headers := r0.map Prod.fst
      let headerWrites := headers.enum.map (fun p =>
        Write.mk (getCellAddress startCol startRow (p.1 : Int)) (some (Sum.inl p.2))
          [td.styleHeader.getD defaultHeaderStyle])
      let bodyWrites := (td.data.enum.map (fun rp =>
        headers.enum.map (fun cp =>
          Write.mk (getCellAddress startCol (startRow + rp.1 + 1) (cp.1 : Int))
            ((alookup rp.2 cp.2).map Sum.inr)
            (styleList td.styleRows ++
              if rp.1 % 2 = 1 then styleList td.styleAlternateRows else [])))).flatten
      let reg := tableRegOf td startCol startRow headers
      some ⟨headerWrites ++ bodyWrites, reg.1, reg.2⟩

/-! ## Sheet formatting: auto column width -/

/-- A cell value as seen by the auto-width scan: a string or an integer
number (other JS values stringify analogously); an empty cell is `none`
at the `Option CVal` level. -/
inductive CVal where
  | str (s : String)
  | num (n : Int)
deriving DecidableEq

/-- JS `value.toString()` for the modelled values. -/
def cvalToString : CVal → String
  | CVal.str s => s
  | CVal.num n => toString n

/-- JS truthiness of a cell value: empty cells, `""` and `0` are falsy. -/
def truthyCVal : Option CVal → Bool
  | none => false
  | some (CVal.str s) => !s.data.isEmpty
  | some (CVal.num n) => n != 0

/-- `cell.value ? cell.value.toString().length : 10` for one cell of the
auto-width scan (`eachCell` with `includeEmpty`). -/
def cellDisplayLen : Option CVal → Nat
  | none => 10
  | some v => if truthyCVal (some v) then (cvalToString v).length else 10

/-- The per-column body of the auto-width loop: a running maximum over
every cell starting at 0, then `Math.min(maxLength + 2, 50)`. -/
def autoColumnWidth (cells : List (Option CVal)) : Nat :=
  let maxLength := cells.foldl (fun m c => max m (cellDisplayLen c)) 0
  min (maxLength + 2) 50

/-- The auto-width branch of `applySheetFormatting`: each column is its
list of cells paired with its current width (`none` = unset); when
`formatting.autoWidth` is requested every column's width is set, else the
columns are untouched.  (Freeze panes and page setup mutate unrelated
worksheet state and are outside the claims.) -/
def applySheetFormatting (autoWidth : Bool)
    (cols : List (List (Option CVal) × Option Nat)) :
    List (List (Option CVal) × Option Nat) :=
  if autoWidth then cols.map (fun c => (c.1, some (autoColumnWidth c.1))) else cols

/-- The stringified length of a cell's value (0 for an empty cell). -/
def renderedLen : Option CVal → Nat
  | none => 0
  | some v => (cvalToString v).length

/-- Definition following the claim's words (for refutation): the rendered
length of each cell, with only truly empty cells counting as 10. -/
def claimDisplayLen : Option CVal → Nat
  | none => 10
  | some v => (cvalToString v).length

/-- Definition following the amended claim's words: falsy cells (empty,
`""`, the number 0) count as 10, every other cell its rendered length. -/
def amendedDisplayLen (c : Option CVal) : Nat :=
  if truthyCVal c then renderedLen c else 10

/-! ## The template filler

Worksheet rows are `TRow = List (Option String)`: `some` holds a cell's
string value, `none` is an empty or non-string cell (either way
`fillWorksheetTemplate` leaves it untouched; a cell holding the falsy
empty string is likewise skipped).  The two regexes are modelled over
`List Char`: `\{\{(\w+)\}\}` for scalar placeholders and `\{\{#(\w+)\}\}`
for the repeating-block marker. -/

/-- Match of the regex `\{\{(\w+)\}\}` at the start of `s`: the greedy
word run after the braces must be non-empty and directly followed by the
closing braces.  Returns the captured key and the remainder. -/
def tryMatchPH (s : List Char) : Option (String × List Char) :=
  match s with
  | c1 :: c2 :: rest =>
    match rest.dropWhile isWordChar with
    | c3 :: c4 :: tail =>
      if c1 = '\x7b' ∧ c2 = '\x7b' ∧ c3 = '\x7d' ∧ c4 = '\x7d' ∧
          rest.takeWhile isWordChar ≠ []
      then some (String.mk (rest.takeWhile isWordChar), tail)
      else none
    | _ => none
  | _ => none

/-- First match of `\{\{(\w+)\}\}` anywhere in `s`: the text before the
match, the captured key, and the remainder after the match. -/
def splitFirstPH : List Char → Option (List Char × String × List Char)
  | [] => none
  | c :: cs =>
    match tryMatchPH (c :: cs) with
    | some (key, tail) => some ([], key, tail)
    | none =>
      match splitFirstPH cs with
      | some (pre, key, tail) => some (c :: pre, key, tail)
      | none => none

/-- Match of the repeating-block regex `\{\{#(\w+)\}\}` at the start. -/
def tryMatchArr (s : List Char) : Option (String × List Char) :=
  match s with
  | c1 :: c2 :: c3 :: rest =>
    match rest.dropWhile isWordChar with
    | c4 :: c5 :: tail =>
      if c1 = '\x7b' ∧ c2 = '\x7b' ∧ c3 = '#' ∧ c4 = '\x7d' ∧ c5 = '\x7d' ∧
          rest.takeWhile isWordChar ≠ []
      then some (String.mk (rest.takeWhile isWordChar), tail)
      else none
    | _ => none
  | _ => none

/-- First match of `\{\{#(\w+)\}\}` anywhere in `s`. -/
def splitFirstArr : List Char → Option (List Char × String × List Char)
  | [] => none
  | c :: cs =>
    match tryMatchArr (c :: cs) with
    | some (key, tail) => some ([], key, tail)
    | none =>
      match splitFirstArr cs with
      | some (pre, key, tail) => some (c :: pre, key, tail)
      | none => none

/-- `arrayRegex.exec(cellValue)`'s captured key, if any. -/
def findArrKey (s : List Char) : Option String :=
  (splitFirstArr s).map (fun p => p.2.1)

/-- `value.replace(/\{\{#\w+\}\}/, '')`: the non-global regex removes
only the first occurrence. -/
def stripFirstArrMarker (s : List Char) : List Char :=
  match splitFirstArr s with
  | none => s
  | some (pre, _, tail) => pre ++ tail

/-- The matched text `{{key}}`, emitted unchanged for an absent key. -/
def phText (key : String) : List Char :=
  '\x7b' :: '\x7b' :: (key.data ++ '\x7d' :: '\x7d' :: [])

/-- The replacement for one match: `f key` when defined, else the matched
text itself. -/
def substPH (f : String → Option String) (key : String) : List Char :=
  match f key with
  | some v => v.data
  | none => phText key

/-- `value.replace(/\{\{(\w+)\}\}/g, ...)` with explicit fuel: each
iteration emits the text before the first remaining match, the
replacement, and continues after the match.  Fuel `s.length` is always
sufficient because every match consumes at least five characters. -/
def replTmplF (f : String → Option String) : Nat → List Char → List Char
  | _, [] => []
  | 0, s => s
  | fuel + 1, s =>
    match splitFirstPH s with
    | none => s
    | some (pre, key, tail) => pre ++ substPH f key ++ replTmplF f fuel tail

/-- The global placeholder replacement on a string value. -/
def replaceTemplatePlaceholders (f : String → Option String) (s : String) : String :=
  String.mk (replTmplF f s.data.length s.data)

/-- A data value: the string form of a scalar, or an array of item
objects (each item maps field names to the string forms of its values,
as JS string coercion renders them during replacement). -/
inductive DVal where
  | str (s : String)
  | arr (items : List (List (String × String)))
deriving DecidableEq

/-- JS string coercion of a data value used as a replacement text: an
array stringifies as its comma-joined elements, a plain object as
"[object Object]". -/
def dvalToString : DVal → String
  | DVal.str s => s
  | DVal.arr items => String.intercalate "," (items.map (fun _ => "[object Object]"))

/-- `data[key] !== undefined ? data[key] : match` as the replacement
function of the scalar pass. -/
def dataLookupStr (data : List (String × DVal)) (k : String) : Option String :=
  (alookup data k).map dvalToString

/-- A template worksheet row. -/
abbrev TRow := List (Option String)

/-- The inner per-cell substitution of the repeating-block branch: strip
the first `{{#...}}` marker from the raw cell text, then substitute each
`{{field}}` from the current item's fields. -/
def substItemCell (item : List (String × String)) (c : Option String) : Option String :=
  match c with
  | none => none
  | some s =>
    if s.data.isEmpty then some s
    else some (replaceTemplatePlaceholders (fun k => alookup item k)
      (String.mk (stripFirstArrMarker s.data)))

/-- `worksheet.insertRow` at list index `pos` (row number `pos + 1`). -/
def insertRowAt (rows : List TRow) (pos : Nat) (r : TRow) : List TRow :=
  rows.take pos ++ r :: rows.drop pos

/-- The `arrayData.forEach((item, index) => ...)` loop at template-row
index `k`: each item after the first inserts an EMPTY row below the
template row, then every cell of the row at index `k + index` is
substituted (an inserted row has no cells, so nothing happens there). -/
def processItemsAux (k : Nat) : Nat → List (List (String × String)) → List TRow → List TRow
  | _, [], rows => rows
  | index, item :: restItems, rows =>
    let rows1 := if index > 0 then insertRowAt rows (k + index) [] else rows
    let row := (rows1[k + index]?).getD []
    let rows2 := rows1.set (k + index) (row.map (substItemCell item))
    processItemsAux k (index + 1) restItems rows2

/-- One cell step of the filler's outer `eachCell` loop on the live sheet
state: `k` is the current row index, `j` the current cell index, `n` the
remaining count of the cell snapshot taken at loop entry.  A string cell
is first scalar-substituted; if the result holds a `{{#key}}` marker and
`data[key]` is an array the repeating-block expansion runs (and the
scalar result is discarded), otherwise the scalar result is stored. -/
def processCellsAux (data : List (String × DVal)) (k : Nat) :
    Nat → Nat → List TRow → List TRow
  | _, 0, rows => rows
  | j, n + 1, rows =>
    let row := (rows[k]?).getD []
    let rows2 :=
      match row[j]? with
      | some (some s) =>
        if s.data.isEmpty then rows
        else
          let cellValue := replaceTemplatePlaceholders (dataLookupStr data) s
          match findArrKey cellValue.data with
          | some key =>
            match alookup data key with
            | some (DVal.arr items) => processItemsAux k 0 items rows
            | _ => rows.set k (row.set j (some cellValue))
          | none => rows.set k (row.set j (some cellValue))
      | _ => rows
    processCellsAux data k (j + 1) n rows2

/-- One row of the outer `eachRow` loop (the callback's `rowNumber` is
`k + 1`): the cell count is snapshotted at entry, the sheet is live. -/
def processRowsAux (data : List (String × DVal)) : Nat → Nat → List TRow → List TRow
  | _, 0, rows => rows
  | k, n + 1, rows =>
    let rows2 := processCellsAux data k 0 ((rows[k]?).getD []).length rows
    processRowsAux data (k + 1) n rows2

/-- `fillWorksheetTemplate(worksheet, data)`: the row count is
snapshotted at loop entry (JS `forEach` caches the length), while row
insertions below the current row mutate the live sheet. -/
def fillWorksheetTemplate (data : List (String × DVal)) (rows : List TRow) : List TRow :=
  processRowsAux data 0 rows.length rows

/-- The per-cell scalar substitution: what the filler stores in a string
cell when no repeating-block expansion is triggered. -/
def scalarCellFill (data : List (String × DVal)) : Option String → Option String
  | none => none
  | some s =>
    if s.data.isEmpty then some s
    else some (replaceTemplatePlaceholders (dataLookupStr data) s)

/-- Derived view for the proofs: the single-cell write of the
scalar-only path, performed in place at index `j`. -/
def updCellAt (data : List (String × DVal)) (row : TRow) (j : Nat) : TRow :=
  match row[j]? with
  | some (some s) =>
    if s.data.isEmpty then row
    else row.set j (some (replaceTemplatePlaceholders (dataLookupStr data) s))
  | _ => row

/-- Derived view for the proofs: the scalar-only cell loop over indices
`j .. j+n-1`. -/
def cellLoop (data : List (String × DVal)) : Nat → Nat → TRow → TRow
  | _, 0, row => row
  | j, n + 1, row => cellLoop data (j + 1) n (updCellAt data row j)

/-- The spec's own repeating-block example data:
`{items: [{product:"A",qty:1},{product:"B",qty:2}]}`. -/
def exItemsData : List (String × DVal) :=
  [("items", DVal.arr [[("product", "A"), ("qty", "1")], [("product", "B"), ("qty", "2")]])]

/-- A concrete table with heterogeneous row shapes, anchored at "A1". -/
def exTable : TableDef String :=
  { name := none, range := some "A1",
    data := [[("Product", "Widget"), ("Q1", "5")], [("Q1", "7"), ("Extra", "x")]],
    styleHeader := none, styleRows := none, styleAlternateRows := none }

/-! ## Theorems -/

/-- Claim C1: for every anchor column that is a single uppercase letter,
every row number, and every column offset such that the anchor's zero-based
column index plus the offset lies in `0..25`, `getCellAddress` returns an
address made of a single column letter followed by the row unchanged, and
the letter decodes back to `(anchorIndex + offset) % 26`; the arithmetic
never carries into a second letter. -/
theorem getCellAddress_roundtrip (c : Char) (row : Nat) (off : Int)
    (h1 : 65 ≤ c.toNat) (h2 : c.toNat ≤ 90)
    (h3 : 0 ≤ (c.toNat : Int) - 65 + off) (h4 : (c.toNat : Int) - 65 + off ≤ 25) :
    ∃ L : Char,
      getCellAddress (String.mk [c]) row off = String.mk [L] ++ toString row ∧
      (L.toNat : Int) - 65 = ((c.toNat : Int) - 65 + off) % 26 ∧
      65 ≤ L.toNat ∧ L.toNat ≤ 90 := by
  have hcc : charCodeAt0 (String.mk [c]) = c.toNat := rfl
  obtain ⟨n, hn, ha⟩ : ∃ n : Nat, n ≤ 25 ∧ (c.toNat : Int) - 65 + off = (n : Int) := by
    refine ⟨((c.toNat : Int) - 65 + off).toNat, by omega, by omega⟩
  refine ⟨Char.ofNat (65 + ((n : Int)).tmod 26).toNat, ?_, ?_, ?_, ?_⟩
  · simp only [getCellAddress]
    rw [hcc, ha]
  · rw [ha]
    interval_cases n <;> decide
  · interval_cases n <;> decide
  · interval_cases n <;> decide

/-- Witness for C1 at anchor column "B", row 7, offset 3. -/
theorem getCellAddress_roundtrip_witness :
    65 ≤ 'B'.toNat ∧ 'B'.toNat ≤ 90 ∧
    0 ≤ ('B'.toNat : Int) - 65 + 3 ∧ ('B'.toNat : Int) - 65 + 3 ≤ 25 ∧
    (∃ L : Char,
      getCellAddress (String.mk ['B']) 7 3 = String.mk [L] ++ toString 7 ∧
      (L.toNat : Int) - 65 = (('B'.toNat : Int) - 65 + 3) % 26 ∧
      65 ≤ L.toNat ∧ L.toNat ≤ 90) :=
  ⟨by decide, by decide, by decide, by decide,
    getCellAddress_roundtrip 'B' 7 3 (by decide) (by decide) (by decide) (by decide)⟩

/-- Claim C10: `getCellAddress` is not total over negative offsets: with
anchor "A", row 5 and offset -1 the truncated remainder is negative and the
result is the string "@5", whose first character is not an uppercase
letter, violating the `[A-Z]+[0-9]+` address pattern. -/
theorem getCellAddress_negative_offset :
    getCellAddress (String.mk ['A']) 5 (-1) = "@5" ∧
    "@5".data = '@' :: '5' :: [] ∧
    isUpperAZ '@' = false := by
  refine ⟨?_, ?_, ?_⟩ <;> decide

theorem strOr_of_ne (d s : String) (h : s ≠ "") : strOr d (some s) = s := by
  obtain ⟨l⟩ := s
  cases l with
  | nil => exact absurd rfl h
  | cons a as => simp [strOr]

/-- Claim C8 counterexample: for the `text` tag an explicit format string
does not override the fixed "@" format, so the claim's "for every tag, an
explicit format overrides the default" fails at tag `text`. -/
theorem applyCellDataType_text_counterexample :
    (applyCellDataType "text" (some "0.00") (blankCell : CellState Unit)).numFmt = some "@" ∧
    ¬ (applyCellDataType "text" (some "0.00") (blankCell : CellState Unit)).numFmt
        = some "0.00" := by
  refine ⟨?_, ?_⟩ <;> decide

/-- Claim C8 (corrected): applying a data type sets the cell's number
format to the fixed default of the tag (number→"0.00", currency→"$#,##0.00",
percentage→"0.00%", date→"mm/dd/yyyy", datetime→"mm/dd/yyyy hh:mm:ss",
time→"hh:mm:ss", text→"@"); a non-empty explicit format string overrides
the default for every tag except `text`, which always sets "@". -/
theorem applyCellDataType_formats {α : Type} (c : CellState α) (fmt : String)
    (hf : fmt ≠ "") :
    ((applyCellDataType "number" none c).numFmt = some "0.00" ∧
     (applyCellDataType "currency" none c).numFmt = some "$#,##0.00" ∧
     (applyCellDataType "percentage" none c).numFmt = some "0.00%" ∧
     (applyCellDataType "date" none c).numFmt = some "mm/dd/yyyy" ∧
     (applyCellDataType "datetime" none c).numFmt = some "mm/dd/yyyy hh:mm:ss" ∧
     (applyCellDataType "time" none c).numFmt = some "hh:mm:ss" ∧
     (applyCellDataType "text" none c).numFmt = some "@") ∧
    ((applyCellDataType "number" (some fmt) c).numFmt = some fmt ∧
     (applyCellDataType "currency" (some fmt) c).numFmt = some fmt ∧
     (applyCellDataType "percentage" (some fmt) c).numFmt = some fmt ∧
     (applyCellDataType "date" (some fmt) c).numFmt = some fmt ∧
     (applyCellDataType "datetime" (some fmt) c).numFmt = some fmt ∧
     (applyCellDataType "time" (some fmt) c).numFmt = some fmt ∧
     (applyCellDataType "text" (some fmt) c).numFmt = some "@") := by
  have hov : ∀ d : String, strOr d (some fmt) = fmt := fun d => strOr_of_ne d fmt hf
  constructor
  · refine ⟨?_, ?_, ?_, ?_, ?_, ?_, ?_⟩ <;> simp [applyCellDataType, toLowerStr, strOr]
  · refine ⟨?_, ?_, ?_, ?_, ?_, ?_, ?_⟩ <;> simp [applyCellDataType, toLowerStr, hov]

/-- Witness for C8 at a concrete non-empty format string. -/
theorem applyCellDataType_formats_witness :
    ("#,##0" : String) ≠ "" ∧
    (applyCellDataType "number" (some "#,##0") (blankCell : CellState Unit)).numFmt
      = some "#,##0" :=
  ⟨by decide, ((applyCellDataType_formats (blankCell : CellState Unit) "#,##0"
      (by decide)).2).1⟩

theorem applyFontStep_value {α : Type} (st : StyleSpec) (c c' : CellState α)
    (h : applyFontStep st c = some c') : c'.value = c.value := by
  cases hf : st.font with
  | none =>
    simp only [applyFontStep, hf] at h
    injection h with h
    subst h; rfl
  | some f =>
    cases hc : fontColorE f.color with
    | none =>
      simp only [applyFontStep, hf, hc] at h
      exact Option.noConfusion h
    | some col =>
      simp only [applyFontStep, hf, hc] at h
      injection h with h
      subst h; rfl

theorem applyFillStep_value {α : Type} (st : StyleSpec) (c c' : CellState α)
    (h : applyFillStep st c = some c') : c'.value = c.value := by
  unfold applyFillStep at h
  split at h
  · cases hc : normalizeColorE (orColor st.backgroundColor (st.fill.bind FillSpec.fgColor)) with
    | none => rw [hc] at h; exact absurd h (by simp)
    | some col => rw [hc] at h; injection h with h; subst h; rfl
  · injection h with h; subst h; rfl

theorem applyAlignStep_value {α : Type} (st : StyleSpec) (c : CellState α) :
    (applyAlignStep st c).value = c.value := by
  unfold applyAlignStep
  cases st.alignment <;> rfl

theorem applyBorderStep_value {α : Type} (st : StyleSpec) (c : CellState α) :
    (applyBorderStep st c).value = c.value := by
  unfold applyBorderStep
  cases st.border <;> rfl

theorem applyNumFmtStep_value {α : Type} (st : StyleSpec) (c : CellState α) :
    (applyNumFmtStep st c).value = c.value := by
  unfold applyNumFmtStep
  cases st.numFmt with
  | none => rfl
  | some s => dsimp only; split <;> rfl

/-- Claim C9 (corrected): style application never propagates an exception
to the caller: the result of `applyCellStyle` is exactly the try-body's
state at the moment of the throw (so earlier sub-styles persist while the
offending sub-style and every later one are skipped — the catch wraps the
whole application, not just the offending sub-style), and the cell's
previously written value is never modified. -/
theorem applyCellStyle_never_throws {α : Type} (st : StyleSpec) (c : CellState α) :
    (applyCellStyle st c).value = c.value ∧
    (applyCellStyleTry st c = Except.ok (applyCellStyle st c) ∨
     applyCellStyleTry st c = Except.error (applyCellStyle st c)) := by
  constructor
  · unfold applyCellStyle
    cases hf : applyFontStep st c with
    | none => rfl
    | some c1 =>
      dsimp only
      cases hl : applyFillStep st c1 with
      | none => exact applyFontStep_value st c c1 hf
      | some c2 =>
        dsimp only
        rw [applyNumFmtStep_value, applyBorderStep_value, applyAlignStep_value]
        rw [applyFillStep_value st c1 c2 hl, applyFontStep_value st c c1 hf]
  · unfold applyCellStyle applyCellStyleTry
    cases hf : applyFontStep st c with
    | none => exact Or.inr rfl
    | some c1 =>
      dsimp only
      cases hl : applyFillStep st c1 with
      | none => exact Or.inr rfl
      | some c2 => exact Or.inl rfl

/-- Claim C9 counterexample: with a font color given as an `{argb: ...}`
object and an alignment also requested, the font branch throws and the
catch skips the alignment sub-style as well: the cell comes out entirely
unstyled, while the claim's per-sub-style reading would still apply the
alignment. -/
theorem applyCellStyle_counterexample :
    applyCellStyle styleFontObjAlign (blankCell : CellState Unit) = blankCell ∧
    (applyCellStyleClaimed styleFontObjAlign (blankCell : CellState Unit)).alignment
      = some { horizontal := "center", vertical := "middle", wrapText := false, indent := 0 } ∧
    ¬ applyCellStyle styleFontObjAlign (blankCell : CellState Unit)
        = applyCellStyleClaimed styleFontObjAlign (blankCell : CellState Unit) := by
  refine ⟨?_, ?_, ?_⟩ <;> decide

/-! ### Runs, character classes and anchor parsing -/

theorem takeWhile_all_append {p : Char → Bool} {a : List Char} (b : List Char)
    (h : ∀ c ∈ a, p c = true) : (a ++ b).takeWhile p = a ++ b.takeWhile p := by
  induction a with
  | nil => simp
  | cons x xs ih =>
    have hx : p x = true := h x (by simp)
    simp only [List.cons_append, List.takeWhile_cons, hx, if_true]
    rw [ih (fun c hc => h c (by simp [hc]))]

theorem takeWhile_all {p : Char → Bool} {a : List Char} (h : ∀ c ∈ a, p c = true) :
    a.takeWhile p = a := by
  have h2 := takeWhile_all_append [] h
  simpa using h2

theorem dropWhile_all_append {p : Char → Bool} {a : List Char} (b : List Char)
    (h : ∀ c ∈ a, p c = true) : (a ++ b).dropWhile p = b.dropWhile p := by
  induction a with
  | nil => simp
  | cons x xs ih =>
    have hx : p x = true := h x (by simp)
    simp only [List.cons_append, List.dropWhile_cons, hx, if_true]
    rw [ih (fun c hc => h c (by simp [hc]))]

theorem takeWhile_stop {p : Char → Bool} {c : Char} (cs : List Char)
    (h : p c = false) : (c :: cs).takeWhile p = [] := by
  simp [List.takeWhile_cons, h]

theorem dropWhile_stop {p : Char → Bool} {c : Char} (cs : List Char)
    (h : p c = false) : (c :: cs).dropWhile p = c :: cs := by
  simp [List.dropWhile_cons, h]

theorem firstRun_skip {p : Char → Bool} {a : List Char} (b : List Char)
    (h : ∀ c ∈ a, p c = false) : firstRun p (a ++ b) = firstRun p b := by
  induction a with
  | nil => simp
  | cons x xs ih =>
    have hx : p x = false := h x (by simp)
    simp only [List.cons_append, firstRun, hx, if_false]
    exact ih (fun c hc => h c (by simp [hc]))

theorem firstRun_all_append {p : Char → Bool} {a : List Char} (b : List Char)
    (ha : a ≠ []) (h : ∀ c ∈ a, p c = true) :
    firstRun p (a ++ b) = a ++ b.takeWhile p := by
  cases a with
  | nil => exact absurd rfl ha
  | cons x xs =>
    have hx : p x = true := h x (by simp)
    simp only [List.cons_append, firstRun, hx, if_true]
    rw [show xs.append b = xs ++ b from rfl,
      takeWhile_all_append b (fun c hc => h c (by simp [hc]))]

theorem isUpperAZ_iff {c : Char} : isUpperAZ c = true ↔ 65 ≤ c.toNat ∧ c.toNat ≤ 90 := by
  simp [isUpperAZ]

theorem isDigitC_iff {c : Char} : isDigitC c = true ↔ 48 ≤ c.toNat ∧ c.toNat ≤ 57 := by
  simp [isDigitC]

theorem upper_not_digit {c : Char} (h : isUpperAZ c = true) : isDigitC c = false := by
  cases hb : isDigitC c with
  | false => rfl
  | true =>
    rw [isUpperAZ_iff] at h
    rw [isDigitC_iff] at hb
    omega

theorem digit_not_upper {c : Char} (h : isDigitC c = true) : isUpperAZ c = false := by
  cases hb : isUpperAZ c with
  | false => rfl
  | true =>
    rw [isUpperAZ_iff] at hb
    rw [isDigitC_iff] at h
    omega

theorem upper_ne_colon {c : Char} (h : isUpperAZ c = true) : (c != ':') = true := by
  rw [isUpperAZ_iff] at h
  rcases eq_or_ne c ':' with rfl | hne
  · exact absurd h (by decide)
  · simp only [bne_iff_ne, ne_eq]
    exact hne

theorem digit_ne_colon {c : Char} (h : isDigitC c = true) : (c != ':') = true := by
  rw [isDigitC_iff] at h
  rcases eq_or_ne c ':' with rfl | hne
  · exact absurd h (by decide)
  · simp only [bne_iff_ne, ne_eq]
    exact hne

theorem anchorOf_parse (colChars rowChars : List Char)
    (hc1 : colChars ≠ []) (hc2 : ∀ c ∈ colChars, isUpperAZ c = true)
    (hr1 : rowChars ≠ []) (hr2 : ∀ c ∈ rowChars, isDigitC c = true) :
    anchorOf (colChars ++ rowChars) = some (String.mk colChars, parseDigits rowChars) := by
  have hds : firstRun isDigitC (colChars ++ rowChars) = rowChars := by
    rw [firstRun_skip rowChars (fun c hc => upper_not_digit (hc2 c hc))]
    cases rowChars with
    | nil => exact absurd rfl hr1
    | cons x xs =>
      have hx : isDigitC x = true := hr2 x (by simp)
      simp only [firstRun, hx, if_true]
      rw [takeWhile_all (fun c hc => hr2 c (by simp [hc]))]
  have hus : firstRun isUpperAZ (colChars ++ rowChars) = colChars := by
    rw [firstRun_all_append rowChars hc1 hc2]
    cases rowChars with
    | nil => simp
    | cons y ys =>
      rw [takeWhile_stop ys (digit_not_upper (hr2 y (by simp)))]
      simp
  have h1 : rowChars.isEmpty = false := by
    cases rowChars with
    | nil => exact absurd rfl hr1
    | cons y ys => rfl
  have h2 : colChars.isEmpty = false := by
    cases colChars with
    | nil => exact absurd rfl hc1
    | cons y ys => rfl
  simp [anchorOf, hds, hus, h1, h2]

theorem takeWhile_anchor_colon (colChars rowChars endTail : List Char)
    (hall : ∀ c ∈ colChars ++ rowChars, (fun ch => ch != ':') c = true)
    (he : endTail = [] ∨ ∃ rest, endTail = ':' :: rest) :
    (colChars ++ rowChars ++ endTail).takeWhile (fun ch => ch != ':')
      = colChars ++ rowChars := by
  rw [takeWhile_all_append endTail hall]
  rcases he with rfl | ⟨rest, rfl⟩
  · simp
  · rw [takeWhile_stop rest (by decide)]
    simp

/-! ### The range writer (claim C4) -/

/-- Claim C4: for every range spec whose data is a 2-D row-major array, the
range writer parses only the start anchor of the range string and writes
`data[i][j]` at row `anchorRow + i`, column offset `j` from the anchor
column, via the address resolver, with the optional uniform style applied
to every written cell; the end component of the range string (an arbitrary
`: <rest>` tail, or nothing) has no effect on the result. -/
theorem processRange_start_anchor {α : Type} (colChars rowChars endTail : List Char)
    (rows : List (List α)) (st : Option StyleSpec)
    (hc1 : colChars ≠ []) (hc2 : ∀ c ∈ colChars, isUpperAZ c = true)
    (hr1 : rowChars ≠ []) (hr2 : ∀ c ∈ rowChars, isDigitC c = true)
    (he : endTail = [] ∨ ∃ rest, endTail = ':' :: rest) :
    processRange (RangeDef.mk (String.mk (colChars ++ rowChars ++ endTail))
        (some (rows.map some)) st)
      = some ((rows.enum.map (fun rp =>
          rp.2.enum.map (fun cp =>
            Write.mk (getCellAddress (String.mk colChars)
              (parseDigits rowChars + rp.1) (cp.1 : Int)) cp.2 (styleList st)))).flatten) ∧
    processRange (RangeDef.mk (String.mk (colChars ++ rowChars ++ endTail))
        (some (rows.map some)) st)
      = processRange (RangeDef.mk (String.mk (colChars ++ rowChars))
          (some (rows.map some)) st) := by
  have hall : ∀ c ∈ colChars ++ rowChars, (fun ch => ch != ':') c = true := by
    intro c hc
    rcases List.mem_append.mp hc with h | h
    · exact upper_ne_colon (hc2 c h)
    · exact digit_ne_colon (hr2 c h)
  have hanchor := anchorOf_parse colChars rowChars hc1 hc2 hr1 hr2
  have hmap : ((rows.map some).enum.map (fun rp =>
        match rp.2 with
        | none => ([] : List (Write α))
        | some cells =>
          cells.enum.map (fun cp =>
            Write.mk (getCellAddress (String.mk colChars)
              (parseDigits rowChars + rp.1) (cp.1 : Int)) cp.2 (styleList st))))
      = rows.enum.map (fun rp =>
          rp.2.enum.map (fun cp =>
            Write.mk (getCellAddress (String.mk colChars)
              (parseDigits rowChars + rp.1) (cp.1 : Int)) cp.2 (styleList st))) := by
    rw [List.enum_map, List.map_map]
    apply List.map_congr_left
    rintro ⟨i, cells⟩ hp
    rfl
  have h1 : processRange (RangeDef.mk (String.mk (colChars ++ rowChars ++ endTail))
        (some (rows.map some)) st)
      = some ((rows.enum.map (fun rp =>
          rp.2.enum.map (fun cp =>
            Write.mk (getCellAddress (String.mk colChars)
              (parseDigits rowChars + rp.1) (cp.1 : Int)) cp.2 (styleList st)))).flatten) := by
    simp only [processRange]
    rw [show (String.mk (colChars ++ rowChars ++ endTail)).data.takeWhile
          (fun ch => ch != ':') = colChars ++ rowChars from
        takeWhile_anchor_colon colChars rowChars endTail hall he]
    rw [hanchor]
    dsimp only
    rw [hmap]
  have h2 : processRange (RangeDef.mk (String.mk (colChars ++ rowChars))
        (some (rows.map some)) st)
      = some ((rows.enum.map (fun rp =>
          rp.2.enum.map (fun cp =>
            Write.mk (getCellAddress (String.mk colChars)
              (parseDigits rowChars + rp.1) (cp.1 : Int)) cp.2 (styleList st)))).flatten) := by
    simp only [processRange]
    rw [show (String.mk (colChars ++ rowChars)).data.takeWhile
          (fun ch => ch != ':') = colChars ++ rowChars from
        takeWhile_all hall]
    rw [hanchor]
    dsimp only
    rw [hmap]
  exact ⟨h1, h2.symm ▸ h1⟩

/-- Witness for C4: anchor "A3", end component ":B9", two data rows. -/
theorem processRange_start_anchor_witness :
    (['A'] : List Char) ≠ [] ∧ (['3'] : List Char) ≠ [] ∧
    ((':' :: ['B', '9'] : List Char) = [] ∨ ∃ rest, (':' :: ['B', '9'] : List Char) = ':' :: rest) ∧
    processRange (RangeDef.mk (String.mk (['A'] ++ ['3'] ++ (':' :: ['B', '9'])))
        (some (([["Product", "Qty"], ["Widget", "5"]] : List (List String)).map some)) none)
      = processRange (RangeDef.mk (String.mk (['A'] ++ ['3']))
        (some (([["Product", "Qty"], ["Widget", "5"]] : List (List String)).map some)) none) :=
  ⟨by decide, by decide, Or.inr ⟨['B', '9'], rfl⟩,
    (processRange_start_anchor ['A'] ['3'] (':' :: ['B', '9'])
      [["Product", "Qty"], ["Widget", "5"]] none
      (by decide) (by decide) (by decide) (by decide)
      (Or.inr ⟨['B', '9'], rfl⟩)).2⟩

/-! ### The table writer (claims C5 and C6) -/

theorem flatten_blocks_length {β : Type} (bs : List (List β)) (L : Nat)
    (hL : ∀ b ∈ bs, b.length = L) : bs.flatten.length = L * bs.length := by
  induction bs with
  | nil => simp
  | cons b0 bs ih =>
    rw [List.flatten_cons, List.length_append, hL b0 (by simp),
      ih (fun b hb => hL b (by simp [hb])), List.length_cons, Nat.mul_succ]
    ring

theorem flatten_blocks_get {β : Type} (bs : List (List β)) (L : Nat)
    (hL : ∀ b ∈ bs, b.length = L) :
    ∀ i b, bs[i]? = some b → (bs.flatten.drop (L * i)).take L = b := by
  induction bs with
  | nil =>
    intro i b h
    simp at h
  | cons b0 bs ih =>
    intro i b h
    cases i with
    | zero =>
      rw [List.getElem?_cons_zero] at h
      injection h with h
      subst h
      rw [List.flatten_cons, Nat.mul_zero, List.drop_zero, ← hL b0 (by simp), List.take_left]
    | succ i =>
      rw [List.getElem?_cons_succ] at h
      rw [List.flatten_cons]
      have harith : L * (i + 1) = b0.length + L * i := by
        rw [hL b0 (by simp)]
        ring
      rw [harith, List.drop_append]
      exact ih (fun b2 hb => hL b2 (by simp [hb])) i b h

theorem enum_map_snd_comp {β γ : Type} (l : List β) (g : β → γ) :
    l.enum.map (fun p => g p.2) = l.map g := by
  conv_lhs => rw [show (fun p : Nat × β => g p.2) = g ∘ Prod.snd from rfl]
  rw [← List.map_map, List.enum_map_snd]

/-- Layout of a header block followed by one uniform block per data row. -/
theorem write_blocks_layout {β γ δ : Type} (H : List γ) (dat : List δ)
    (hdrF : Nat × γ → β) (F : Nat × δ → Nat × γ → β) :
    (H.enum.map hdrF ++ (dat.enum.map (fun rp => H.enum.map (F rp))).flatten).length
        = H.length * (1 + dat.length) ∧
    (H.enum.map hdrF ++ (dat.enum.map (fun rp => H.enum.map (F rp))).flatten).take H.length
        = H.enum.map hdrF ∧
    ∀ ri row, dat[ri]? = some row →
      ((H.enum.map hdrF ++ (dat.enum.map (fun rp => H.enum.map (F rp))).flatten).drop
          (H.length * (1 + ri))).take H.length
        = H.enum.map (F (ri, row)) := by
  have hhdr : (H.enum.map hdrF).length = H.length := by
    rw [List.length_map, List.enum_length]
  have hblocks : ∀ b ∈ dat.enum.map (fun rp => H.enum.map (F rp)), b.length = H.length := by
    intro b hb
    obtain ⟨p, hp, rfl⟩ := List.mem_map.mp hb
    rw [List.length_map, List.enum_length]
  refine ⟨?_, ?_, ?_⟩
  · rw [List.length_append, hhdr,
      flatten_blocks_length (dat.enum.map (fun rp => H.enum.map (F rp))) H.length hblocks,
      List.length_map, List.enum_length]
    ring
  · rw [← hhdr, List.take_left]
  · intro ri row hrow
    have harith : H.length * (1 + ri) = (H.enum.map hdrF).length + H.length * ri := by
      rw [hhdr]
      ring
    rw [harith, List.drop_append]
    apply flatten_blocks_get (dat.enum.map (fun rp => H.enum.map (F rp))) H.length hblocks
    rw [List.getElem?_map, List.getElem?_enum, hrow]
    rfl

/-- `processTable` computed on a non-empty table with a parsed anchor:
header writes at the anchor row, then one block of writes per data row. -/
theorem processTable_writes {α : Type} (td : TableDef α) (col : String) (r0 : Nat)
    (hne : td.data ≠ []) (ha : anchorOf (startCellOf td) = some (col, r0)) :
    processTable td = some (TableOut.mk
      ((((td.data.headD []).map Prod.fst).enum.map (fun p =>
          Write.mk (getCellAddress col r0 (p.1 : Int)) (some (Sum.inl p.2))
            [td.styleHeader.getD defaultHeaderStyle]))
        ++ (td.data.enum.map (fun rp =>
            ((td.data.headD []).map Prod.fst).enum.map (fun cp =>
              Write.mk (getCellAddress col (r0 + rp.1 + 1) (cp.1 : Int))
                ((alookup rp.2 cp.2).map Sum.inr)
                (styleList td.styleRows ++
                  if rp.1 % 2 = 1 then styleList td.styleAlternateRows else [])))).flatten)
      (tableRegOf td col r0 ((td.data.headD []).map Prod.fst)).1
      (tableRegOf td col r0 ((td.data.headD []).map Prod.fst)).2) := by
  obtain ⟨r0row, rest, hdata⟩ : ∃ a b, td.data = a :: b := by
    cases h : td.data with
    | nil => exact absurd h hne
    | cons a b => exact ⟨a, b, rfl⟩
  simp only [processTable, hdata, ha, List.headD_cons]

/-- Dispatch-level layout of the table writer: for every table spec with
a non-empty data array and a parseable anchor, the header row is written
at the anchor with the header sub-style when given and otherwise with
`defaultHeaderStyle` passed to style application; one body row per data
element follows beneath the header, with the body sub-style on every body
cell and the alternate-row sub-style layered on top of it (not replacing
it) on every body row with odd zero-based index.  This records which
styles are dispatched; whether the default actually styles the cell is
settled by `processTable_default_header_bug`. -/
theorem processTable_table_layout {α : Type} (td : TableDef α) (col : String) (r0 : Nat)
    (hne : td.data ≠ []) (ha : anchorOf (startCellOf td) = some (col, r0)) :
    defaultHeaderStyle.font
      = some { name := none, size := none, bold := some true, italic := none,
               underline := none, color := some (ColorVal.argbObj "FFFFFFFF") } ∧
    defaultHeaderStyle.fill = some { fgColor := some (ColorVal.argbObj "FF366092") } ∧
    defaultHeaderStyle.alignment
      = some { horizontal := some "center", vertical := some "middle",
               wrapText := none, indent := none } ∧
    ∃ out, processTable td = some out ∧
      out.writes.length
        = ((td.data.headD []).map Prod.fst).length * (1 + td.data.length) ∧
      out.writes.take ((td.data.headD []).map Prod.fst).length
        = ((td.data.headD []).map Prod.fst).enum.map (fun p =>
            Write.mk (getCellAddress col r0 (p.1 : Int)) (some (Sum.inl p.2))
              [td.styleHeader.getD defaultHeaderStyle]) ∧
      ∀ ri row, td.data[ri]? = some row →
        (out.writes.drop (((td.data.headD []).map Prod.fst).length * (1 + ri))).take
            ((td.data.headD []).map Prod.fst).length
          = ((td.data.headD []).map Prod.fst).enum.map (fun cp =>
              Write.mk (getCellAddress col (r0 + ri + 1) (cp.1 : Int))
                ((alookup row cp.2).map Sum.inr)
                (styleList td.styleRows ++
                  if ri % 2 = 1 then styleList td.styleAlternateRows else [])) := by
  refine ⟨rfl, rfl, rfl, ?_⟩
  obtain ⟨hlen, htake, hdrop⟩ := write_blocks_layout ((td.data.headD []).map Prod.fst) td.data
    (fun p => Write.mk (getCellAddress col r0 (p.1 : Int)) (some (Sum.inl p.2))
      [td.styleHeader.getD defaultHeaderStyle])
    (fun rp cp => Write.mk (getCellAddress col (r0 + rp.1 + 1) (cp.1 : Int))
      ((alookup rp.2 cp.2).map Sum.inr)
      (styleList td.styleRows ++ if rp.1 % 2 = 1 then styleList td.styleAlternateRows else []))
  exact ⟨_, processTable_writes td col r0 hne ha, hlen, htake, hdrop⟩

/-- Claim C5 (code bug, evaluated at a concrete table without a header
sub-style): the table writer does pass its documented default header
style — bold, white font color, dark-blue `FF366092` solid fill,
centered — to style application for every header cell, but that default
carries its colors as exceljs-native `{argb: ...}` objects, so
`normalizeColor` throws on them and `applyCellStyle`'s catch discards the
whole application: a header cell written with the default comes out with
no font, no fill and no alignment, contrary to the claimed default
styling.  (The body/alternate-row layering part of the claim matches the
code; see `processTable_table_layout`.) -/
theorem processTable_default_header_bug :
    (processTable exTable).map (fun out => (out.writes.take 2).map Write.styles)
      = some [[defaultHeaderStyle], [defaultHeaderStyle]] ∧
    defaultHeaderStyle.font
      = some { name := none, size := none, bold := some true, italic := none,
               underline := none, color := some (ColorVal.argbObj "FFFFFFFF") } ∧
    defaultHeaderStyle.fill = some { fgColor := some (ColorVal.argbObj "FF366092") } ∧
    defaultHeaderStyle.alignment
      = some { horizontal := some "center", vertical := some "middle",
               wrapText := none, indent := none } ∧
    applyCellStyle defaultHeaderStyle (blankCell : CellState Unit) = blankCell ∧
    (applyCellStyle defaultHeaderStyle (blankCell : CellState Unit)).font = none ∧
    (applyCellStyle defaultHeaderStyle (blankCell : CellState Unit)).fill = none ∧
    (applyCellStyle defaultHeaderStyle (blankCell : CellState Unit)).alignment = none := by
  refine ⟨?_, ?_, ?_, ?_, ?_, ?_, ?_, ?_⟩ <;> decide

/-- The dispatch-level layout of `processTable` on a concrete two-row
table anchored at "A1": 2 header cells and 2 body rows produce
2 * (1 + 2) = 6 writes. -/
theorem processTable_table_layout_witness :
    exTable.data ≠ [] ∧ anchorOf (startCellOf exTable) = some ("A", 1) ∧
    ∃ out, processTable exTable = some out ∧ out.writes.length = 2 * (1 + 2) := by
  refine ⟨by decide, by decide, ?_⟩
  obtain ⟨-, -, -, out, hout, hlen, -, -⟩ :=
    processTable_table_layout exTable "A" 1 (by decide) (by decide)
  refine ⟨out, hout, ?_⟩
  have h2 : ((exTable.data.headD []).map Prod.fst).length * (1 + exTable.data.length)
      = 2 * (1 + 2) := by decide
  rw [h2] at hlen
  exact hlen

/-- Claim C6: the set and order of written table columns are exactly the
keys of the first row object; every body cell's value is the row's value
under the corresponding first-row key, so a key absent in a later row
renders blank (`none`) and keys of later rows that do not appear in the
first row are silently ignored (the written values are determined by the
first-row keys alone). -/
theorem processTable_first_row_keys {α : Type} (td : TableDef α) (col : String) (r0 : Nat)
    (hne : td.data ≠ []) (ha : anchorOf (startCellOf td) = some (col, r0)) :
    ∃ out, processTable td = some out ∧
      out.writes.length
        = ((td.data.headD []).map Prod.fst).length * (1 + td.data.length) ∧
      (out.writes.take ((td.data.headD []).map Prod.fst).length).map Write.value
        = ((td.data.headD []).map Prod.fst).map (fun h => some (Sum.inl h)) ∧
      ∀ ri row, td.data[ri]? = some row →
        ((out.writes.drop (((td.data.headD []).map Prod.fst).length * (1 + ri))).take
            ((td.data.headD []).map Prod.fst).length).map Write.value
          = ((td.data.headD []).map Prod.fst).map (fun h => (alookup row h).map Sum.inr) := by
  obtain ⟨hlen, htake, hdrop⟩ := write_blocks_layout ((td.data.headD []).map Prod.fst) td.data
    (fun p => Write.mk (getCellAddress col r0 (p.1 : Int)) (some (Sum.inl p.2))
      [td.styleHeader.getD defaultHeaderStyle])
    (fun rp cp => Write.mk (getCellAddress col (r0 + rp.1 + 1) (cp.1 : Int))
      ((alookup rp.2 cp.2).map Sum.inr)
      (styleList td.styleRows ++ if rp.1 % 2 = 1 then styleList td.styleAlternateRows else []))
  refine ⟨_, processTable_writes td col r0 hne ha, hlen, ?_, ?_⟩
  · rw [htake, List.map_map]
    exact enum_map_snd_comp ((td.data.headD []).map Prod.fst)
      (fun h => some (Sum.inl h))
  · intro ri row hrow
    rw [hdrop ri row hrow, List.map_map]
    exact enum_map_snd_comp ((td.data.headD []).map Prod.fst)
      (fun h => (alookup row h).map Sum.inr)

/-- Witness for C6 on a concrete table whose second row has a different
key set than the first. -/
theorem processTable_first_row_keys_witness :
    exTable.data ≠ [] ∧ anchorOf (startCellOf exTable) = some ("A", 1) ∧
    ∃ out, processTable exTable = some out := by
  refine ⟨by decide, by decide, ?_⟩
  obtain ⟨out, hout, -, -, -⟩ :=
    processTable_first_row_keys exTable "A" 1 (by decide) (by decide)
  exact ⟨out, hout⟩

/-! ### Sheet formatting (claim C7) -/

theorem le_foldl_max (l : List Nat) (b : Nat) : b ≤ l.foldl max b := by
  induction l generalizing b with
  | nil => exact Nat.le_refl b
  | cons x xs ih => exact le_trans (Nat.le_max_left b x) (ih (max b x))

theorem mem_le_foldl_max (l : List Nat) : ∀ b x, x ∈ l → x ≤ l.foldl max b := by
  induction l with
  | nil =>
    intro b x hx
    simp at hx
  | cons y ys ih =>
    intro b x hx
    rcases List.mem_cons.mp hx with rfl | h
    · exact le_trans (Nat.le_max_right b x) (le_foldl_max ys (max b x))
    · exact ih (max b y) x h

/-- Claim C7 counterexample: a column whose only cell holds the number 0
gets width 12 (a falsy value counts as length 10), while the claim's
formula — empty cells count 10, every other cell its rendered length —
prescribes min(1 + 2, 50) = 3. -/
theorem autoWidth_counterexample :
    applySheetFormatting true [([some (CVal.num 0)], none)]
      = [([some (CVal.num 0)], some 12)] ∧
    min (([some (CVal.num 0)].foldl (fun m c => max m (claimDisplayLen c)) 0) + 2) 50 = 3 ∧
    ¬ (12 = 3) := by
  refine ⟨?_, ?_, ?_⟩ <;> decide

/-- Claim C7 (corrected): when auto-width is requested every column's
width is set to `min(maxLength + 2, 50)`, where `maxLength` is the
maximum over the column's cells of the rendered value's length with every
falsy cell (empty, the empty string, or the number 0) counting as length
10; a column of truthy values whose longest rendered value has 8
characters gets width 10, and any column containing a truthy value longer
than 48 characters gets width exactly 50. -/
theorem applySheetFormatting_autoWidth (cols : List (List (Option CVal) × Option Nat))
    (cells : List (Option CVal)) :
    applySheetFormatting true cols
      = cols.map (fun c => (c.1,
          some (min (((c.1.map amendedDisplayLen).foldl max 0) + 2) 50))) ∧
    ((∀ v ∈ cells, truthyCVal v = true) →
      (cells.map renderedLen).foldl max 0 = 8 → autoColumnWidth cells = 10) ∧
    (∀ v ∈ cells, truthyCVal v = true → 48 < renderedLen v → autoColumnWidth cells = 50) := by
  have hpt : ∀ c : Option CVal, cellDisplayLen c = amendedDisplayLen c := by
    intro c
    cases c with
    | none => rfl
    | some v => rfl
  have hfold : ∀ l : List (Option CVal),
      l.foldl (fun m c => max m (cellDisplayLen c)) 0 = (l.map cellDisplayLen).foldl max 0 :=
    fun l => (List.foldl_map cellDisplayLen max l 0).symm
  refine ⟨?_, ?_, ?_⟩
  · unfold applySheetFormatting
    rw [if_pos rfl]
    apply List.map_congr_left
    intro c hc
    have hcol : autoColumnWidth c.1
        = min (((c.1.map amendedDisplayLen).foldl max 0) + 2) 50 := by
      unfold autoColumnWidth
      rw [hfold c.1]
      have : c.1.map cellDisplayLen = c.1.map amendedDisplayLen :=
        List.map_congr_left (fun v hv => hpt v)
      rw [this]
    rw [hcol]
  · intro hall h8
    unfold autoColumnWidth
    rw [hfold cells]
    have hmaps : cells.map cellDisplayLen = cells.map renderedLen :=
      List.map_congr_left (fun v hv => by
        rw [hpt v]
        unfold amendedDisplayLen
        rw [if_pos (hall v hv)])
    rw [hmaps, h8]
    decide
  · intro v hv htr hlen
    unfold autoColumnWidth
    rw [hfold cells]
    have hmem : cellDisplayLen v ∈ cells.map cellDisplayLen := List.mem_map_of_mem _ hv
    have hle := mem_le_foldl_max (cells.map cellDisplayLen) 0 (cellDisplayLen v) hmem
    have heq : cellDisplayLen v = renderedLen v := by
      rw [hpt v]
      unfold amendedDisplayLen
      rw [if_pos htr]
    rw [heq] at hle
    rw [min_eq_right (by omega)]

/-- Witness for C7: an 8-character column gets width 10 and a 49-character
column gets width 50. -/
theorem applySheetFormatting_autoWidth_witness :
    (∀ v ∈ [some (CVal.str "12345678")], truthyCVal v = true) ∧
    ([some (CVal.str "12345678")].map renderedLen).foldl max 0 = 8 ∧
    autoColumnWidth [some (CVal.str "12345678")] = 10 ∧
    some (CVal.str "1234567890123456789012345678901234567890123456789")
        ∈ [some (CVal.str "1234567890123456789012345678901234567890123456789")] ∧
    48 < renderedLen (some (CVal.str "1234567890123456789012345678901234567890123456789")) ∧
    autoColumnWidth [some (CVal.str "1234567890123456789012345678901234567890123456789")]
      = 50 :=
  ⟨by decide, by decide,
    (applySheetFormatting_autoWidth [] [some (CVal.str "12345678")]).2.1
      (by decide) (by decide),
    by decide, by decide,
    (applySheetFormatting_autoWidth []
        [some (CVal.str "1234567890123456789012345678901234567890123456789")]).2.2
      (some (CVal.str "1234567890123456789012345678901234567890123456789"))
      (by decide) (by decide) (by decide)⟩

/-! ### The template filler: the placeholder regex -/

theorem tryMatchPH_eq_some {s : List Char} {k : String} {t : List Char}
    (h : tryMatchPH s = some (k, t)) :
    s = '\x7b' :: '\x7b' :: (k.data ++ '\x7d' :: '\x7d' :: t) ∧ k.data ≠ [] := by
  cases s with
  | nil => exact absurd h (by simp [tryMatchPH])
  | cons c1 s1 =>
    cases s1 with
    | nil => exact absurd h (by simp [tryMatchPH])
    | cons c2 rest =>
      unfold tryMatchPH at h
      dsimp only at h
      cases hd : rest.dropWhile isWordChar with
      | nil =>
        rw [hd] at h
        exact absurd h (by simp)
      | cons c3 t1 =>
        cases t1 with
        | nil =>
          rw [hd] at h
          exact absurd h (by simp)
        | cons c4 tail =>
          rw [hd] at h
          dsimp only at h
          split at h
          · rename_i hcond
            obtain ⟨hb1, hb2, hb3, hb4, hne⟩ := hcond
            subst hb1
            subst hb2
            subst hb3
            subst hb4
            rw [Option.some.injEq, Prod.mk.injEq] at h
            obtain ⟨hk, ht⟩ := h
            subst ht
            have hr := (List.takeWhile_append_dropWhile isWordChar rest).symm
            rw [hd] at hr
            constructor
            · rw [← hk]
              conv_lhs => rw [hr]
            · rw [← hk]
              exact hne
          · exact absurd h (by simp)

theorem splitFirstPH_eq_some {s pre t : List Char} {k : String}
    (h : splitFirstPH s = some (pre, k, t)) :
    s = pre ++ '\x7b' :: '\x7b' :: (k.data ++ '\x7d' :: '\x7d' :: t) ∧ k.data ≠ [] := by
  induction s generalizing pre with
  | nil => exact absurd h (by simp [splitFirstPH])
  | cons c cs ih =>
    unfold splitFirstPH at h
    cases hm : tryMatchPH (c :: cs) with
    | some p =>
      obtain ⟨key, tail⟩ := p
      rw [hm] at h
      dsimp only at h
      rw [Option.some.injEq, Prod.mk.injEq, Prod.mk.injEq] at h
      obtain ⟨h1, h2, h3⟩ := h
      subst h1
      subst h2
      subst h3
      obtain ⟨hs, hk⟩ := tryMatchPH_eq_some hm
      exact ⟨by simpa using hs, hk⟩
    | none =>
      rw [hm] at h
      dsimp only at h
      cases hs : splitFirstPH cs with
      | none =>
        rw [hs] at h
        exact absurd h (by simp)
      | some q =>
        obtain ⟨pre1, k1, t1⟩ := q
        rw [hs] at h
        dsimp only at h
        rw [Option.some.injEq, Prod.mk.injEq, Prod.mk.injEq] at h
        obtain ⟨h1, h2, h3⟩ := h
        subst h2
        subst h3
        obtain ⟨hs2, hk⟩ := ih hs
        refine ⟨?_, hk⟩
        rw [← h1, List.cons_append, hs2]

theorem splitFirstPH_tail_lt {s pre t : List Char} {k : String}
    (h : splitFirstPH s = some (pre, k, t)) : t.length < s.length := by
  obtain ⟨hs, hk⟩ := splitFirstPH_eq_some h
  subst hs
  simp [List.length_append]
  omega

theorem tryMatchPH_match (key : String) (suf : List Char)
    (hk1 : key.data ≠ []) (hk2 : ∀ c ∈ key.data, isWordChar c = true) :
    tryMatchPH ('\x7b' :: '\x7b' :: (key.data ++ '\x7d' :: '\x7d' :: suf))
      = some (key, suf) := by
  have hdw : (key.data ++ '\x7d' :: '\x7d' :: suf).dropWhile isWordChar
      = '\x7d' :: '\x7d' :: suf := by
    rw [dropWhile_all_append ('\x7d' :: '\x7d' :: suf) hk2]
    exact dropWhile_stop _ (by decide)
  have htw : (key.data ++ '\x7d' :: '\x7d' :: suf).takeWhile isWordChar = key.data := by
    rw [takeWhile_all_append ('\x7d' :: '\x7d' :: suf) hk2]
    rw [takeWhile_stop _ (by decide)]
    exact List.append_nil _
  unfold tryMatchPH
  dsimp only
  rw [hdw]
  dsimp only
  rw [htw]
  rw [if_pos ⟨rfl, rfl, rfl, rfl, hk1⟩]

theorem tryMatchPH_none_of_head {c : Char} (cs : List Char) (hc : c ≠ '\x7b') :
    tryMatchPH (c :: cs) = none := by
  cases cs with
  | nil => rfl
  | cons c2 rest =>
    unfold tryMatchPH
    dsimp only
    cases rest.dropWhile isWordChar with
    | nil => rfl
    | cons c3 t1 =>
      cases t1 with
      | nil => rfl
      | cons c4 tail => exact if_neg (fun hp => hc hp.1)

theorem splitFirstPH_at (pre : List Char) (key : String) (suf : List Char)
    (hpre : '\x7b' ∉ pre) (hk1 : key.data ≠ [])
    (hk2 : ∀ c ∈ key.data, isWordChar c = true) :
    splitFirstPH (pre ++ '\x7b' :: '\x7b' :: (key.data ++ '\x7d' :: '\x7d' :: suf))
      = some (pre, key, suf) := by
  induction pre with
  | nil =>
    rw [List.nil_append]
    unfold splitFirstPH
    rw [tryMatchPH_match key suf hk1 hk2]
  | cons c cs ih =>
    have hc : c ≠ '\x7b' := by
      intro hcc
      subst hcc
      exact hpre (List.mem_cons_self _ _)
    rw [List.cons_append]
    unfold splitFirstPH
    rw [tryMatchPH_none_of_head _ hc]
    dsimp only
    rw [ih (fun hm => hpre (List.mem_cons_of_mem c hm))]

theorem replTmplF_fuel {f : String → Option String} :
    ∀ (n m : Nat) (s : List Char), s.length ≤ n → s.length ≤ m →
      replTmplF f n s = replTmplF f m s := by
  intro n
  induction n with
  | zero =>
    intro m s hn hm
    cases s with
    | nil => cases m <;> rfl
    | cons c cs => simp at hn
  | succ n ih =>
    intro m s hn hm
    cases s with
    | nil => cases m <;> rfl
    | cons c cs =>
      cases m with
      | zero => simp at hm
      | succ m =>
        unfold replTmplF
        cases hsp : splitFirstPH (c :: cs) with
        | none => rfl
        | some p =>
          obtain ⟨pre, key, tail⟩ := p
          have hlt : tail.length < (c :: cs).length := splitFirstPH_tail_lt hsp
          dsimp only
          rw [ih m tail (by simp at hlt hn ⊢; omega) (by simp at hlt hm ⊢; omega)]

theorem replTmplF_split {f : String → Option String} {s pre t : List Char} {k : String}
    (n : Nat) (hsp : splitFirstPH s = some (pre, k, t)) :
    replTmplF f (n + 1) s = pre ++ substPH f k ++ replTmplF f n t := by
  cases s with
  | nil => exact absurd hsp (by simp [splitFirstPH])
  | cons c cs =>
    conv_lhs => unfold replTmplF
    rw [hsp]

/-- One occurrence of `{{key}}` (preceded by brace-free text) is replaced
by `f key` when defined and kept literally otherwise, and replacement
continues independently on the text after the match. -/
theorem replaceTemplatePlaceholders_occurrence (f : String → Option String)
    (pre : List Char) (key : String) (suf : List Char)
    (hpre : '\x7b' ∉ pre) (hk1 : key.data ≠ [])
    (hk2 : ∀ c ∈ key.data, isWordChar c = true) :
    replaceTemplatePlaceholders f
        (String.mk (pre ++ '\x7b' :: '\x7b' :: (key.data ++ '\x7d' :: '\x7d' :: suf)))
      = String.mk (pre ++ substPH f key
          ++ (replaceTemplatePlaceholders f (String.mk suf)).data) := by
  have hsp := splitFirstPH_at pre key suf hpre hk1 hk2
  show String.mk (replTmplF f
      (pre ++ '\x7b' :: '\x7b' :: (key.data ++ '\x7d' :: '\x7d' :: suf)).length
      (pre ++ '\x7b' :: '\x7b' :: (key.data ++ '\x7d' :: '\x7d' :: suf)))
    = String.mk (pre ++ substPH f key ++ replTmplF f suf.length suf)
  congr 1
  rw [show (pre ++ '\x7b' :: '\x7b' :: (key.data ++ '\x7d' :: '\x7d' :: suf)).length
      = (pre.length + key.data.length + 3 + suf.length) + 1 from by
    simp [List.length_append]
    omega]
  rw [replTmplF_split (pre.length + key.data.length + 3 + suf.length) hsp]
  rw [replTmplF_fuel (pre.length + key.data.length + 3 + suf.length) suf.length suf
    (by omega) (Nat.le_refl _)]

/-! ### The template filler: the scalar-only path (claim C3) -/

theorem set_self {β : Type} {l : List β} {k : Nat} {r : β} (h : l[k]? = some r) :
    l.set k r = l := by
  apply List.ext_getElem?
  intro i
  rw [List.getElem?_set]
  by_cases hik : k = i
  · subst hik
    obtain ⟨hlt, he⟩ := List.getElem?_eq_some.mp h
    simp [hlt, h]
  · rw [if_neg hik]

theorem updCellAt_length (data : List (String × DVal)) (row : TRow) (j : Nat) :
    (updCellAt data row j).length = row.length := by
  unfold updCellAt
  split
  · split
    · rfl
    · exact List.length_set row j _
  · rfl

theorem updCellAt_getElem_ne (data : List (String × DVal)) (row : TRow) {j i : Nat}
    (h : j ≠ i) : (updCellAt data row j)[i]? = row[i]? := by
  unfold updCellAt
  split
  · split
    · rfl
    · exact List.getElem?_set_ne h
  · rfl

theorem updCellAt_getElem_self (data : List (String × DVal)) (row : TRow) (j : Nat) :
    (updCellAt data row j)[j]? = (row[j]?).map (scalarCellFill data) := by
  unfold updCellAt
  cases hrj : row[j]? with
  | none => simp [hrj]
  | some c =>
    cases c with
    | none => simp [hrj, scalarCellFill]
    | some s =>
      dsimp only
      by_cases hse : s.data.isEmpty
      · rw [if_pos hse, hrj]
        simp [scalarCellFill, hse]
      · rw [if_neg hse]
        obtain ⟨hlt, he⟩ := List.getElem?_eq_some.mp hrj
        rw [List.getElem?_set_self hlt]
        simp [scalarCellFill, hse]

/-- One step of the scalar-only cell loop: under a flat data mapping the
repeating-block branch never fires, so the step is an in-place cell
update of the current row. -/
theorem processCellsAux_step (data : List (String × DVal))
    (hflat : ∀ k d, alookup data k = some d → ∃ s0, d = DVal.str s0)
    (k j n : Nat) (rows : List TRow) :
    processCellsAux data k j (n + 1) rows
      = processCellsAux data k (j + 1) n
          (match rows[k]? with
           | none => rows
           | some r => rows.set k (updCellAt data r j)) := by
  rw [processCellsAux]
  congr 1
  cases hrk : rows[k]? with
  | none =>
    simp
  | some r =>
    dsimp only [Option.getD]
    cases hrj : r[j]? with
    | none =>
      have hupd : updCellAt data r j = r := by
        unfold updCellAt
        rw [hrj]
      rw [hupd, set_self hrk]
    | some c =>
      cases c with
      | none =>
        have hupd : updCellAt data r j = r := by
          unfold updCellAt
          rw [hrj]
        rw [hupd, set_self hrk]
      | some s =>
        dsimp only
        by_cases hse : s.data.isEmpty
        · rw [if_pos hse]
          have hupd : updCellAt data r j = r := by
            unfold updCellAt
            rw [hrj]
            dsimp only
            rw [if_pos hse]
          rw [hupd, set_self hrk]
        · rw [if_neg hse]
          have hupd : updCellAt data r j
              = r.set j (some (replaceTemplatePlaceholders (dataLookupStr data) s)) := by
            unfold updCellAt
            rw [hrj]
            dsimp only
            rw [if_neg hse]
          cases harr : findArrKey (replaceTemplatePlaceholders (dataLookupStr data) s).data with
          | none =>
            dsimp only
            rw [hupd]
          | some key =>
            dsimp only
            cases hlk : alookup data key with
            | none =>
              dsimp only
              rw [hupd]
            | some d =>
              cases d with
              | str s0 =>
                dsimp only
                rw [hupd]
              | arr items =>
                obtain ⟨s1, hs1⟩ := hflat key (DVal.arr items) hlk
                exact absurd hs1 (by simp)

theorem processCellsAux_flat (data : List (String × DVal))
    (hflat : ∀ k d, alookup data k = some d → ∃ s0, d = DVal.str s0) (k : Nat) :
    ∀ (n j : Nat) (rows : List TRow) (i : Nat),
      (processCellsAux data k j n rows)[i]?
        = if i = k then (rows[i]?).map (cellLoop data j n) else rows[i]? := by
  intro n
  induction n with
  | zero =>
    intro j rows i
    unfold processCellsAux
    by_cases hik : i = k
    · subst hik
      rw [if_pos rfl]
      cases rows[i]? <;> simp [cellLoop]
    · rw [if_neg hik]
  | succ n ih =>
    intro j rows i
    rw [processCellsAux_step data hflat k j n rows]
    rw [ih (j + 1) _ i]
    cases hrk : rows[k]? with
    | none =>
      dsimp only
      by_cases hik : i = k
      · subst hik
        simp [hrk]
      · simp [hik]
    | some r =>
      dsimp only
      by_cases hik : i = k
      · subst hik
        obtain ⟨hlt, he⟩ := List.getElem?_eq_some.mp hrk
        have hcl : cellLoop data (j + 1) n (updCellAt data r j)
            = cellLoop data j (n + 1) r := rfl
        simp [hrk, List.getElem?_set_self hlt, hcl]
      · simp [hik, List.getElem?_set_ne (fun hki => hik hki.symm)]

theorem processCellsAux_length (data : List (String × DVal))
    (hflat : ∀ k d, alookup data k = some d → ∃ s0, d = DVal.str s0) (k : Nat) :
    ∀ (n j : Nat) (rows : List TRow),
      (processCellsAux data k j n rows).length = rows.length := by
  intro n
  induction n with
  | zero =>
    intro j rows
    rfl
  | succ n ih =>
    intro j rows
    rw [processCellsAux_step data hflat k j n rows]
    rw [ih (j + 1) _]
    cases rows[k]? with
    | none => rfl
    | some r => exact List.length_set rows k _

theorem cellLoop_getElem (data : List (String × DVal)) :
    ∀ (n j : Nat) (row : TRow), row.length ≤ j + n →
      ∀ i, (cellLoop data j n row)[i]?
        = if j ≤ i then (row[i]?).map (scalarCellFill data) else row[i]? := by
  intro n
  induction n with
  | zero =>
    intro j row hlen i
    unfold cellLoop
    by_cases hji : j ≤ i
    · rw [if_pos hji]
      rw [List.getElem?_eq_none (by omega)]
      rfl
    · rw [if_neg hji]
  | succ n ih =>
    intro j row hlen i
    rw [cellLoop]
    rw [ih (j + 1) (updCellAt data row j) (by rw [updCellAt_length]; omega) i]
    by_cases hji1 : j + 1 ≤ i
    · rw [if_pos hji1, if_pos (by omega), updCellAt_getElem_ne data row (by omega)]
    · by_cases hji : j ≤ i
      · have hij : i = j := by omega
        subst hij
        rw [if_neg hji1, if_pos hji, updCellAt_getElem_self]
      · rw [if_neg hji1, if_neg hji, updCellAt_getElem_ne data row (by omega)]

theorem processRowsAux_flat (data : List (String × DVal))
    (hflat : ∀ k d, alookup data k = some d → ∃ s0, d = DVal.str s0) :
    ∀ (n k : Nat) (rows : List TRow), k + n = rows.length →
      ∀ i, (processRowsAux data k n rows)[i]?
        = if k ≤ i then (rows[i]?).map (fun r => r.map (scalarCellFill data))
          else rows[i]? := by
  intro n
  induction n with
  | zero =>
    intro k rows hkn i
    unfold processRowsAux
    by_cases hki : k ≤ i
    · rw [if_pos hki, List.getElem?_eq_none (by omega)]
      rfl
    · rw [if_neg hki]
  | succ n ih =>
    intro k rows hkn i
    rw [processRowsAux]
    have hR2 : ∀ i2, (processCellsAux data k 0 ((rows[k]?).getD []).length rows)[i2]?
        = if i2 = k then (rows[i2]?).map (fun r => r.map (scalarCellFill data))
          else rows[i2]? := by
      intro i2
      rw [processCellsAux_flat data hflat k _ 0 rows i2]
      by_cases hik : i2 = k
      · subst hik
        rw [if_pos rfl, if_pos rfl]
        cases hrk : rows[i2]? with
        | none => rfl
        | some r =>
          dsimp only [Option.getD, Option.map_some']
          congr 1
          apply List.ext_getElem?
          intro i3
          rw [cellLoop_getElem data r.length 0 r (by omega) i3,
            if_pos (Nat.zero_le i3), List.getElem?_map]
      · rw [if_neg hik, if_neg hik]
    rw [ih (k + 1) _ (by rw [processCellsAux_length data hflat]; omega) i]
    by_cases hik1 : k + 1 ≤ i
    · rw [if_pos hik1, if_pos (by omega), hR2 i, if_neg (by omega)]
    · by_cases hik : k ≤ i
      · have hkk : i = k := by omega
        subst hkk
        rw [if_neg hik1, if_pos hik, hR2 i, if_pos rfl]
      · rw [if_neg hik1, if_neg hik, hR2 i, if_neg (by omega)]

/-- Claim C3: with a flat data mapping (no array values), template filling
maps every string cell of every row through the scalar substitution, and
the substitution replaces each `{{key}}` occurrence by the string form of
`data[key]` when the key is present and keeps the literal `{{key}}` text
(raising no error) when it is absent, continuing after the occurrence. -/
theorem fillWorksheetTemplate_scalar (data : List (String × DVal))
    (hflat : ∀ k d, alookup data k = some d → ∃ s0, d = DVal.str s0) :
    (∀ rows : List TRow, fillWorksheetTemplate data rows
        = rows.map (fun r => r.map (scalarCellFill data))) ∧
    (∀ (pre : List Char) (key : String) (suf : List Char),
      '\x7b' ∉ pre → key.data ≠ [] → (∀ c ∈ key.data, isWordChar c = true) →
      replaceTemplatePlaceholders (dataLookupStr data)
          (String.mk (pre ++ '\x7b' :: '\x7b' :: (key.data ++ '\x7d' :: '\x7d' :: suf)))
        = String.mk (pre
            ++ (match alookup data key with
                | some d => (dvalToString d).data
                | none => phText key)
            ++ (replaceTemplatePlaceholders (dataLookupStr data)
                  (String.mk suf)).data)) := by
  constructor
  · intro rows
    unfold fillWorksheetTemplate
    apply List.ext_getElem?
    intro i
    rw [processRowsAux_flat data hflat rows.length 0 rows (by omega) i,
      if_pos (Nat.zero_le i), List.getElem?_map]
  · intro pre key suf hpre hk1 hk2
    rw [replaceTemplatePlaceholders_occurrence (dataLookupStr data) pre key suf hpre hk1 hk2]
    have hsub : substPH (dataLookupStr data) key
        = (match alookup data key with
           | some d => (dvalToString d).data
           | none => phText key) := by
      unfold substPH dataLookupStr
      cases alookup data key <;> rfl
    rw [hsub]

/-- Witness for C3: the mapping `{name: "World"}` is flat; the theorem
applies to it, and the substitution evaluates on the spec's examples:
"Hello {{name}}" becomes "Hello World" and a sole "{{missing}}" stays. -/
theorem fillWorksheetTemplate_scalar_witness :
    (∀ k d, alookup [("name", DVal.str "World")] k = some d → ∃ s0, d = DVal.str s0) ∧
    fillWorksheetTemplate [("name", DVal.str "World")]
        [[some "Hello \x7b\x7bname\x7d\x7d"], [none]]
      = ([[some "Hello \x7b\x7bname\x7d\x7d"], [none]] : List TRow).map
          (fun r => r.map (scalarCellFill [("name", DVal.str "World")])) ∧
    scalarCellFill [("name", DVal.str "World")] (some "Hello \x7b\x7bname\x7d\x7d")
      = some "Hello World" ∧
    scalarCellFill [("name", DVal.str "World")] (some "\x7b\x7bmissing\x7d\x7d")
      = some "\x7b\x7bmissing\x7d\x7d" := by
  have hflat : ∀ k d, alookup [("name", DVal.str "World")] k = some d →
      ∃ s0, d = DVal.str s0 := by
    intro k d h
    unfold alookup at h
    cases hpk : (("name" : String) == k) <;> simp [List.find?, hpk] at h
    exact ⟨"World", h.symm⟩
  refine ⟨hflat, ?_, by decide, by decide⟩
  exact (fillWorksheetTemplate_scalar [("name", DVal.str "World")] hflat).1
    [[some "Hello \x7b\x7bname\x7d\x7d"], [none]]

/-! ### The template filler: array expansion (claim C2) -/

/-- Claim C2 (code bug, evaluated at the spec's own example): the
template row `{{#items}}{{product}}: {{qty}}` with
`items = [{product:"A",qty:1},{product:"B",qty:2}]` produces the filled
first row "A: 1" and one inserted row that stays EMPTY — the code inserts
`[]` and then iterates over the cells of that empty row, so the second
element's content "B: 2" is never written, contrary to the claim. -/
theorem fillWorksheetTemplate_array_bug :
    fillWorksheetTemplate exItemsData
        [[some "\x7b\x7b#items\x7d\x7d\x7b\x7bproduct\x7d\x7d: \x7b\x7bqty\x7d\x7d"]]
      = [[some "A: 1"], []] ∧
    ¬ fillWorksheetTemplate exItemsData
        [[some "\x7b\x7b#items\x7d\x7d\x7b\x7bproduct\x7d\x7d: \x7b\x7bqty\x7d\x7d"]]
      = [[some "A: 1"], [some "B: 2"]] := by
  refine ⟨?_, ?_⟩ <;> decide

end ExcelService
